import Mathlib

/-!
Shallow embedding of `scripts/import-pdmx.py` (keysense-app): the
score → Song-document conversion pipeline.  Beats and durations are
modelled as exact rationals, Python `int()` truncation as `pyInt`,
and the parsed music21 score as an explicit `Score` record exposing
the flattened element stream, signature/tempo elements and metadata
that the script reads.  Parse failure is modelled by `Option Score`.
-/

namespace PDMX

/-- One sounding pitch: mirrors the NoteEvent dicts built by
`score_to_note_events` (`note` is the MIDI number, beats are exact). -/
structure NoteEvent where
  note : ℤ
  startBeat : ℚ
  durationBeats : ℚ
deriving DecidableEq

/-- End of a note on the beat axis: `startBeat + durationBeats`. -/
def noteEnd (n : NoteEvent) : ℚ :=
  n.startBeat + n.durationBeats

/-- One element of `score.flatten().notesAndRests`: a single note, a
chord of pitches, or a rest (anything that is neither Note nor Chord). -/
inductive ScoreElement where
  | note (pitch : ℤ) (offset : ℚ) (duration : ℚ)
  | chord (pitches : List ℤ) (offset : ℚ) (duration : ℚ)
  | rest (offset : ℚ) (duration : ℚ)
deriving DecidableEq

/-- A music21 KeySignature: its `sharps` count, and `asKey` when the
object exposes that attribute (`none` models a missing attribute). -/
structure KeySignature where
  sharps : ℤ
  asKey : Option String
deriving DecidableEq

/-- The `score.metadata` object: optional title and composer strings
(`none` models Python `None`; the empty string is also falsy). -/
structure ScoreMetadata where
  title : Option String
  composer : Option String
deriving DecidableEq

/-- A parsed score, as read by the converter: the flattened element
stream plus key/time-signature elements, tempo marks (their `number`
fields, in bpm) and optional metadata. -/
structure Score where
  elements : List ScoreElement
  keySignatures : List KeySignature
  timeSignatures : List (ℕ × ℕ)
  tempoMarks : List ℚ
  metadata : Option ScoreMetadata
deriving DecidableEq

/-- The `layers` sub-dict of a section. -/
structure Layers where
  melody : List NoteEvent
  full : List NoteEvent
deriving DecidableEq

/-- One section dict as produced by `split_into_sections`. -/
structure Section where
  id : String
  label : String
  startBeat : ℚ
  endBeat : ℚ
  difficulty : ℤ
  layers : Layers
deriving DecidableEq

/-- The `metadata` sub-dict of a Song document. -/
structure SongMetadata where
  title : String
  artist : String
  genre : String
  difficulty : ℤ
  durationSeconds : ℤ
  attribution : String
deriving DecidableEq

/-- The `settings` sub-dict of a Song document. -/
structure SongSettings where
  tempo : ℤ
  timeSignature : List ℕ
  keySignature : String
  countIn : ℕ
  metronomeEnabled : Bool
  loopEnabled : Bool
deriving DecidableEq

/-- The `scoring` sub-dict of a Song document. -/
structure SongScoring where
  timingToleranceMs : ℕ
  timingGracePeriodMs : ℕ
  passingScore : ℕ
  starThresholds : List ℕ
deriving DecidableEq

/-- The full Song document returned by `convert_file`. -/
structure Song where
  id : String
  version : ℕ
  type : String
  source : String
  metadata : SongMetadata
  sections : List Section
  settings : SongSettings
  scoring : SongScoring
deriving DecidableEq

/-- Python `int()` applied to a float/rational: truncation toward zero
(floor for non-negative arguments, ceiling for negative ones). -/
def pyInt (q : ℚ) : ℤ :=
  if 0 ≤ q then ⌊q⌋ else ⌈q⌉

/-- `extract_key_signature`: first KeySignature element, preferring its
`asKey` rendering, falling back to a sharps/flats count; default "C". -/
def extract_key_signature (score : Score) : String :=
  match score.keySignatures with
  | ks :: _ =>
    match ks.asKey with
    | some k => k
    | none =>
      if 0 ≤ ks.sharps then toString ks.sharps ++ " sharps"
      else toString ks.sharps.natAbs ++ " flats"
  | [] => "C"

/-- `extract_time_signature`: first TimeSignature's
(numerator, denominator); default (4, 4). -/
def extract_time_signature (score : Score) : ℕ × ℕ :=
  match score.timeSignatures with
  | ts :: _ => ts
  | [] => (4, 4)

/-- `extract_tempo`: `int()` of the first MetronomeMark's `number`;
default 120. -/
def extract_tempo (score : Score) : ℤ :=
  match score.tempoMarks with
  | bpm :: _ => pyInt bpm
  | [] => 120

/-- The NoteEvents appended for one stream element: one per pitch for
notes and chords (a chord's events share its offset and duration),
none for rests. -/
def elementEvents : ScoreElement → List NoteEvent
  | ScoreElement.note pitch offset duration => [⟨pitch, offset, duration⟩]
  | ScoreElement.chord pitches offset duration =>
      pitches.map fun pitch => ⟨pitch, offset, duration⟩
  | ScoreElement.rest _ _ => []

/-- The sort key used by `notes.sort(key=lambda n: (n["startBeat"], n["note"]))`:
lexicographic (startBeat, note) order as a Boolean relation. -/
def noteLe (a b : NoteEvent) : Bool :=
  decide (a.startBeat < b.startBeat ∨ (a.startBeat = b.startBeat ∧ a.note ≤ b.note))

/-- `score_to_note_events`: emit events for every element of the
flattened stream, then sort by (startBeat, note). -/
def score_to_note_events (score : Score) : List NoteEvent :=
  (score.elements.flatMap elementEvents).mergeSort noteLe

/-- The section dict built when a window is closed mid-stream:
`endBeat` is the nominal window end `section_start + beats_per_section`. -/
def mkClosedSection (idx : ℕ) (sectionStart w : ℚ) (buf : List NoteEvent) : Section :=
  { id := "section-" ++ toString idx
    label := "Section " ++ toString (idx + 1)
    startBeat := sectionStart
    endBeat := sectionStart + w
    difficulty := 3
    layers := { melody := buf, full := buf } }

/-- The final section dict: `endBeat` is the end of the buffer's last
note, not the nominal window boundary. -/
def mkFinalSection (idx : ℕ) (sectionStart : ℚ) (last : NoteEvent)
    (buf : List NoteEvent) : Section :=
  { id := "section-" ++ toString idx
    label := "Section " ++ toString (idx + 1)
    startBeat := sectionStart
    endBeat := last.startBeat + last.durationBeats
    difficulty := 3
    layers := { melody := buf, full := buf } }

/-- The per-note loop of `split_into_sections`: arguments are the
remaining notes, the accumulated sections, the current buffer, the
current window start and the section index. -/
def sectionLoop (w : ℚ) :
    List NoteEvent → List Section → List NoteEvent → ℚ → ℕ → List Section
  | [], sections, [], _, _ => sections
  | [], sections, b :: bs, sectionStart, idx =>
      sections ++
        [mkFinalSection idx sectionStart ((b :: bs).getLast (List.cons_ne_nil b bs)) (b :: bs)]
  | n :: rest, sections, buf, sectionStart, idx =>
      if sectionStart + w ≤ n.startBeat ∧ buf ≠ [] then
        sectionLoop w rest (sections ++ [mkClosedSection idx sectionStart w buf])
          [n] (sectionStart + w) (idx + 1)
      else
        sectionLoop w rest sections (buf ++ [n]) sectionStart idx

/-- `split_into_sections(notes, beats_per_bar, bars_per_section=16)`:
the script's only caller uses the default `bars_per_section` of 16,
passed explicitly here. -/
def split_into_sections (notes : List NoteEvent) (beats_per_bar : ℕ)
    (bars_per_section : ℕ) : List Section :=
  if notes = [] then []
  else
    sectionLoop ((beats_per_bar : ℚ) * (bars_per_section : ℚ)) notes [] [] 0 0

/-- Python `max(...)` over the note-end generator: the first end seeds a
left fold with binary `max` (0 for an empty list, which the script
never reaches because both callers guard on emptiness). -/
def maxEndBeat : List NoteEvent → ℚ
  | [] => 0
  | n :: rest => rest.foldl (fun acc m => max acc (noteEnd m)) (noteEnd n)

/-- `estimate_difficulty`: density × tempo heuristic mapped through
fixed thresholds. -/
def estimate_difficulty (notes : List NoteEvent) (tempo : ℤ) : ℤ :=
  if notes = [] then 1
  else
    let last_beat := maxEndBeat notes
    let density := (notes.length : ℚ) / max last_beat 1
    let score := density * ((tempo : ℚ) / 120)
    if score < 1/2 then 1
    else if score < 1 then 2
    else if score < 2 then 3
    else if score < 3 then 4
    else 5

/-- `estimate_duration`: seconds = `int((last / tempo) * 60)` with a
floor of 10; 60 for an empty note list. -/
def estimate_duration (notes : List NoteEvent) (tempo : ℤ) : ℤ :=
  if notes = [] then 60
  else max (pyInt (maxEndBeat notes / (tempo : ℚ) * 60)) 10

/-- `Path(filepath).stem.lower().replace(" ", "-").replace("_", "-")`,
applied to the stem (path splitting is external glue). -/
def slugify (stem : String) : String :=
  ((stem.map Char.toLower).replace " " "-").replace "_" "-"

/-- Character-level loop behind Python `str.title()`: uppercase an
alphabetic character that follows a non-alphabetic one, lowercase the
rest.  The Boolean tracks whether the previous character was alphabetic. -/
def pyTitleGo : Bool → List Char → List Char
  | _, [] => []
  | prevAlpha, c :: rest =>
    if c.isAlpha then
      (if prevAlpha then c.toLower else c.toUpper) :: pyTitleGo true rest
    else
      c :: pyTitleGo false rest

/-- Python `str.title()` (ASCII-cased model). -/
def pyTitle (s : String) : String :=
  ⟨pyTitleGo false s.data⟩

/-- `convert_file`: `parsed` is the outcome of the guarded
`music21.converter.parse` call (`none` = ParseFailure), `stem` is the
file's basename without extension.  Returns the complete Song document
or `none` when the file is rejected. -/
def convert_file (parsed : Option Score) (stem : String) : Option Song :=
  match parsed with
  | none => none
  | some score =>
    let notes := score_to_note_events score
    if notes.length < 4 then none
    else
      let tempo := extract_tempo score
      let time_sig := extract_time_signature score
      let key_sig := extract_key_signature score
      let difficulty := min 5 (max 1 (estimate_difficulty notes tempo))
      let sections := split_into_sections notes time_sig.1 16
      if sections = [] then none
      else
        let basename := slugify stem
        let song_id := "pdmx-" ++ basename
        let default_title := pyTitle (basename.replace "-" " ")
        let title :=
          match score.metadata with
          | some md =>
            match md.title with
            | some t => if t = "" then default_title else t
            | none => default_title
          | none => default_title
        let artist :=
          match score.metadata with
          | some md =>
            match md.composer with
            | some c => if c = "" then "Classical" else c
            | none => "Classical"
          | none => "Classical"
        some
          { id := song_id
            version := 1
            type := "song"
            source := "pdmx"
            metadata :=
              { title := title
                artist := artist
                genre := "classical"
                difficulty := difficulty
                durationSeconds := estimate_duration notes tempo
                attribution := "Piano-MIDI.de corpus" }
            sections := sections
            settings :=
              { tempo := tempo
                timeSignature := [time_sig.1, time_sig.2]
                keySignature := key_sig
                countIn := 4
                metronomeEnabled := true
                loopEnabled := true }
            scoring :=
              { timingToleranceMs := 50
                timingGracePeriodMs := 150
                passingScore := 70
                starThresholds := [70, 85, 95] } }

/-! Unfolding equations for `sectionLoop`. -/

lemma sectionLoop_nil_nil (w : ℚ) (sections : List Section) (s : ℚ) (i : ℕ) :
    sectionLoop w [] sections [] s i = sections := rfl

lemma sectionLoop_nil_cons (w : ℚ) (sections : List Section) (b : NoteEvent)
    (bs : List NoteEvent) (s : ℚ) (i : ℕ) :
    sectionLoop w [] sections (b :: bs) s i =
      sections ++
        [mkFinalSection i s ((b :: bs).getLast (List.cons_ne_nil b bs)) (b :: bs)] := rfl

lemma sectionLoop_cons (w : ℚ) (n : NoteEvent) (rest : List NoteEvent)
    (sections : List Section) (buf : List NoteEvent) (s : ℚ) (i : ℕ) :
    sectionLoop w (n :: rest) sections buf s i =
      if s + w ≤ n.startBeat ∧ buf ≠ [] then
        sectionLoop w rest (sections ++ [mkClosedSection i s w buf]) [n] (s + w) (i + 1)
      else
        sectionLoop w rest sections (buf ++ [n]) s i := rfl

lemma sectionLoop_close {w : ℚ} {n : NoteEvent} {rest : List NoteEvent}
    {sections : List Section} {buf : List NoteEvent} {s : ℚ} {i : ℕ}
    (h : s + w ≤ n.startBeat ∧ buf ≠ []) :
    sectionLoop w (n :: rest) sections buf s i =
      sectionLoop w rest (sections ++ [mkClosedSection i s w buf]) [n] (s + w) (i + 1) := by
  rw [sectionLoop_cons, if_pos h]

lemma sectionLoop_skip {w : ℚ} {n : NoteEvent} {rest : List NoteEvent}
    {sections : List Section} {buf : List NoteEvent} {s : ℚ} {i : ℕ}
    (h : ¬(s + w ≤ n.startBeat ∧ buf ≠ [])) :
    sectionLoop w (n :: rest) sections buf s i =
      sectionLoop w rest sections (buf ++ [n]) s i := by
  rw [sectionLoop_cons, if_neg h]

/-- The accumulated sections are a prefix the loop only appends to. -/
lemma sectionLoop_append (w : ℚ) (notes : List NoteEvent) :
    ∀ (a b : List Section) (buf : List NoteEvent) (s : ℚ) (i : ℕ),
      sectionLoop w notes (a ++ b) buf s i = a ++ sectionLoop w notes b buf s i := by
  induction notes with
  | nil =>
    intro a b buf s i
    cases buf with
    | nil => rw [sectionLoop_nil_nil, sectionLoop_nil_nil]
    | cons x xs => rw [sectionLoop_nil_cons, sectionLoop_nil_cons, List.append_assoc]
  | cons n rest ih =>
    intro a b buf s i
    by_cases h : s + w ≤ n.startBeat ∧ buf ≠ []
    · rw [sectionLoop_close h, sectionLoop_close h, List.append_assoc, ih]
    · rw [sectionLoop_skip h, sectionLoop_skip h, ih]

/-- The loop never returns an empty list once a note is pending. -/
lemma sectionLoop_ne_nil (w : ℚ) (notes : List NoteEvent) :
    ∀ (sections : List Section) (buf : List NoteEvent) (s : ℚ) (i : ℕ),
      buf ≠ [] ∨ notes ≠ [] → sectionLoop w notes sections buf s i ≠ [] := by
  induction notes with
  | nil =>
    intro sections buf s i h
    match buf, h with
    | [], Or.inl h => exact absurd rfl h
    | [], Or.inr h => exact absurd rfl h
    | b :: bs, _ => rw [sectionLoop_nil_cons]; simp
  | cons n rest ih =>
    intro sections buf s i _
    by_cases h : s + w ≤ n.startBeat ∧ buf ≠ []
    · rw [sectionLoop_close h]; exact ih _ _ _ _ (Or.inl (by simp))
    · rw [sectionLoop_skip h]; exact ih _ _ _ _ (Or.inl (by simp))

/-- Concatenating the `full` layers of the loop's output recovers the
accumulator's notes, then the buffer, then the unprocessed notes. -/
lemma sectionLoop_flatMap (w : ℚ) (notes : List NoteEvent) :
    ∀ (sections : List Section) (buf : List NoteEvent) (s : ℚ) (i : ℕ),
      (sectionLoop w notes sections buf s i).flatMap (fun sec => sec.layers.full) =
        sections.flatMap (fun sec => sec.layers.full) ++ buf ++ notes := by
  induction notes with
  | nil =>
    intro sections buf s i
    cases buf with
    | nil => rw [sectionLoop_nil_nil]; simp
    | cons b bs => rw [sectionLoop_nil_cons]; simp [mkFinalSection]
  | cons n rest ih =>
    intro sections buf s i
    by_cases h : s + w ≤ n.startBeat ∧ buf ≠ []
    · rw [sectionLoop_close h, ih]; simp [mkClosedSection]
    · rw [sectionLoop_skip h, ih]; simp

/-- Every section the loop emits has identical, non-empty layers. -/
lemma sectionLoop_layers (w : ℚ) (notes : List NoteEvent) :
    ∀ (sections : List Section) (buf : List NoteEvent) (s : ℚ) (i : ℕ),
      (∀ sec ∈ sections, sec.layers.melody = sec.layers.full ∧ sec.layers.full ≠ []) →
      ∀ sec ∈ sectionLoop w notes sections buf s i,
        sec.layers.melody = sec.layers.full ∧ sec.layers.full ≠ [] := by
  induction notes with
  | nil =>
    intro sections buf s i hacc sec hsec
    cases buf with
    | nil => rw [sectionLoop_nil_nil] at hsec; exact hacc sec hsec
    | cons b bs =>
      rw [sectionLoop_nil_cons] at hsec
      rcases List.mem_append.mp hsec with h | h
      · exact hacc sec h
      · rw [List.mem_singleton] at h; subst h; simp [mkFinalSection]
  | cons n rest ih =>
    intro sections buf s i hacc sec hsec
    by_cases h : s + w ≤ n.startBeat ∧ buf ≠ []
    · rw [sectionLoop_close h] at hsec
      refine ih _ _ _ _ ?_ sec hsec
      intro x hx
      rcases List.mem_append.mp hx with hx | hx
      · exact hacc x hx
      · rw [List.mem_singleton] at hx; subst hx
        simpa [mkClosedSection] using h.2
    · rw [sectionLoop_skip h] at hsec
      exact ih _ _ _ _ hacc sec hsec

/-- With an empty accumulator, the first emitted section starts at the
current window start. -/
lemma sectionLoop_head (w : ℚ) (notes : List NoteEvent) :
    ∀ (buf : List NoteEvent) (s : ℚ) (i : ℕ), buf ≠ [] ∨ notes ≠ [] →
      (sectionLoop w notes [] buf s i).head?.map Section.startBeat = some s := by
  induction notes with
  | nil =>
    intro buf s i h
    match buf, h with
    | [], Or.inl h => exact absurd rfl h
    | [], Or.inr h => exact absurd rfl h
    | b :: bs, _ => rw [sectionLoop_nil_cons]; simp [mkFinalSection]
  | cons n rest ih =>
    intro buf s i h
    by_cases hc : s + w ≤ n.startBeat ∧ buf ≠ []
    · rw [sectionLoop_close hc]
      have happ := sectionLoop_append w rest [mkClosedSection i s w buf] []
        [n] (s + w) (i + 1)
      rw [List.append_nil] at happ
      rw [List.nil_append, happ]
      simp [mkClosedSection]
    · rw [sectionLoop_skip hc]
      exact ih _ _ _ (Or.inl (by simp))

/-- The startBeat sequence of the loop's output is non-decreasing, given
a non-negative window width. -/
lemma sectionLoop_sorted (w : ℚ) (hw : 0 ≤ w) (notes : List NoteEvent) :
    ∀ (sections : List Section) (buf : List NoteEvent) (s : ℚ) (i : ℕ),
      List.Sorted (· ≤ ·) (sections.map Section.startBeat) →
      (∀ sec ∈ sections, sec.startBeat ≤ s) →
      List.Sorted (· ≤ ·) ((sectionLoop w notes sections buf s i).map Section.startBeat) := by
  induction notes with
  | nil =>
    intro sections buf s i hsort hle
    cases buf with
    | nil => rw [sectionLoop_nil_nil]; exact hsort
    | cons b bs =>
      rw [sectionLoop_nil_cons, List.map_append]
      refine List.pairwise_append.mpr ⟨hsort, by simp, ?_⟩
      intro a ha b hb
      obtain ⟨sec, hsec, rfl⟩ := List.mem_map.mp ha
      rw [List.map_singleton, List.mem_singleton] at hb
      subst hb
      simpa [mkFinalSection] using hle sec hsec
  | cons n rest ih =>
    intro sections buf s i hsort hle
    by_cases hc : s + w ≤ n.startBeat ∧ buf ≠ []
    · rw [sectionLoop_close hc]
      refine ih _ _ _ _ ?_ ?_
      · rw [List.map_append]
        refine List.pairwise_append.mpr ⟨hsort, by simp, ?_⟩
        intro a ha b hb
        obtain ⟨sec, hsec, rfl⟩ := List.mem_map.mp ha
        rw [List.map_singleton, List.mem_singleton] at hb
        subst hb
        simpa [mkClosedSection] using hle sec hsec
      · intro sec hsec
        rcases List.mem_append.mp hsec with hx | hx
        · exact le_trans (hle sec hx) (by linarith)
        · rw [List.mem_singleton] at hx; subst hx
          simp only [mkClosedSection]
          linarith
    · rw [sectionLoop_skip hc]
      exact ih _ _ _ _ hsort hle

/-- The loop's last section ends exactly at the end of the last pending
note, which is also the last note of that section's `full` layer. -/
lemma sectionLoop_getLast (w : ℚ) (notes : List NoteEvent) :
    ∀ (sections : List Section) (buf : List NoteEvent) (s : ℚ) (i : ℕ),
      buf ++ notes ≠ [] →
      ∃ sec m, (sectionLoop w notes sections buf s i).getLast? = some sec ∧
        (buf ++ notes).getLast? = some m ∧
        sec.layers.full.getLast? = some m ∧
        sec.endBeat = m.startBeat + m.durationBeats := by
  induction notes with
  | nil =>
    intro sections buf s i h
    rw [List.append_nil] at h
    match buf, h with
    | b :: bs, _ =>
      rw [sectionLoop_nil_cons]
      refine ⟨mkFinalSection i s ((b :: bs).getLast (List.cons_ne_nil b bs)) (b :: bs),
        (b :: bs).getLast (List.cons_ne_nil b bs), ?_, ?_, ?_, rfl⟩
      · rw [List.getLast?_append]; simp
      · rw [List.append_nil]
        exact List.getLast?_eq_getLast (b :: bs) (List.cons_ne_nil b bs)
      · exact List.getLast?_eq_getLast (b :: bs) (List.cons_ne_nil b bs)
  | cons n rest ih =>
    intro sections buf s i h
    by_cases hc : s + w ≤ n.startBeat ∧ buf ≠ []
    · rw [sectionLoop_close hc]
      obtain ⟨sec, m, h1, h2, h3, h4⟩ :=
        ih (sections ++ [mkClosedSection i s w buf]) [n] (s + w) (i + 1) (by simp)
      refine ⟨sec, m, h1, ?_, h3, h4⟩
      rw [List.getLast?_append]
      rw [List.singleton_append] at h2
      rw [h2]
      rfl
    · rw [sectionLoop_skip hc]
      obtain ⟨sec, m, h1, h2, h3, h4⟩ := ih sections (buf ++ [n]) s i (by simp)
      refine ⟨sec, m, h1, ?_, h3, h4⟩
      simpa [List.append_assoc] using h2

/-! Facts about `maxEndBeat` (Python `max` over the note ends). -/

lemma foldl_max_init_le (l : List NoteEvent) :
    ∀ a : ℚ, a ≤ l.foldl (fun acc m => max acc (noteEnd m)) a := by
  induction l with
  | nil => intro a; exact le_refl a
  | cons x xs ih => intro a; exact le_trans (le_max_left a (noteEnd x)) (ih _)

lemma foldl_max_le (l : List NoteEvent) :
    ∀ (a : ℚ) (m : NoteEvent), m ∈ l →
      noteEnd m ≤ l.foldl (fun acc m => max acc (noteEnd m)) a := by
  induction l with
  | nil => intro a m hm; cases hm
  | cons x xs ih =>
    intro a m hm
    rcases List.mem_cons.mp hm with h | h
    · subst h
      exact le_trans (le_max_right a (noteEnd m)) (foldl_max_init_le xs _)
    · exact ih _ m h

lemma foldl_max_cases (l : List NoteEvent) :
    ∀ a : ℚ, l.foldl (fun acc m => max acc (noteEnd m)) a = a ∨
      ∃ m ∈ l, l.foldl (fun acc m => max acc (noteEnd m)) a = noteEnd m := by
  induction l with
  | nil => intro a; exact Or.inl rfl
  | cons x xs ih =>
    intro a
    rcases ih (max a (noteEnd x)) with h | ⟨m, hm, h⟩
    · rcases max_choice a (noteEnd x) with hmax | hmax
      · exact Or.inl (by rw [List.foldl_cons, h, hmax])
      · exact Or.inr ⟨x, List.mem_cons_self x xs, by rw [List.foldl_cons, h, hmax]⟩
    · exact Or.inr ⟨m, List.mem_cons_of_mem x hm, by rw [List.foldl_cons, h]⟩

lemma le_maxEndBeat {notes : List NoteEvent} {m : NoteEvent} (hm : m ∈ notes) :
    noteEnd m ≤ maxEndBeat notes := by
  cases notes with
  | nil => cases hm
  | cons n rest =>
    rcases List.mem_cons.mp hm with h | h
    · subst h; exact foldl_max_init_le rest (noteEnd m)
    · exact foldl_max_le rest (noteEnd n) m h

lemma maxEndBeat_mem {notes : List NoteEvent} (h : notes ≠ []) :
    ∃ m ∈ notes, maxEndBeat notes = noteEnd m := by
  cases notes with
  | nil => exact absurd rfl h
  | cons n rest =>
    rcases foldl_max_cases rest (noteEnd n) with h1 | ⟨m, hm, h1⟩
    · exact ⟨n, List.mem_cons_self n rest, h1⟩
    · exact ⟨m, List.mem_cons_of_mem n hm, h1⟩

/-- `maxEndBeat` is the maximum of `startBeat + durationBeats` over the
notes, in the `List.maximum` sense. -/
lemma maxEndBeat_eq_maximum {notes : List NoteEvent} (h : notes ≠ []) :
    (notes.map noteEnd).maximum = (maxEndBeat notes : WithBot ℚ) := by
  rw [List.maximum_eq_coe_iff]
  constructor
  · obtain ⟨m, hm, he⟩ := maxEndBeat_mem h
    exact he ▸ List.mem_map_of_mem noteEnd hm
  · intro a ha
    obtain ⟨m, hm, rfl⟩ := List.mem_map.mp ha
    exact le_maxEndBeat hm

/-! The sort key is a total preorder, so `mergeSort` sorts by it. -/

lemma noteLe_trans (a b c : NoteEvent) :
    noteLe a b = true → noteLe b c = true → noteLe a c = true := by
  simp only [noteLe, decide_eq_true_eq]
  rintro (h1 | ⟨h1, h1'⟩) (h2 | ⟨h2, h2'⟩)
  · exact Or.inl (lt_trans h1 h2)
  · exact Or.inl (lt_of_lt_of_eq h1 h2)
  · exact Or.inl (lt_of_eq_of_lt h1 h2)
  · exact Or.inr ⟨h1.trans h2, le_trans h1' h2'⟩

lemma noteLe_total (a b : NoteEvent) : (noteLe a b || noteLe b a) = true := by
  simp only [noteLe, Bool.or_eq_true, decide_eq_true_eq]
  rcases lt_trichotomy a.startBeat b.startBeat with h | h | h
  · exact Or.inl (Or.inl h)
  · rcases le_total a.note b.note with hn | hn
    · exact Or.inl (Or.inr ⟨h, hn⟩)
    · exact Or.inr (Or.inr ⟨h.symm, hn⟩)
  · exact Or.inr (Or.inl h)

/-! Facts at the `split_into_sections` and `convert_file` level. -/

lemma split_eq_nil_iff (notes : List NoteEvent) (bpb bars : ℕ) :
    split_into_sections notes bpb bars = [] ↔ notes = [] := by
  constructor
  · intro h
    by_contra hne
    simp only [split_into_sections, if_neg hne] at h
    exact sectionLoop_ne_nil _ _ _ _ _ _ (Or.inr hne) h
  · intro h; subst h; rfl

/-- `mergeSort` leaves an already-sorted event list unchanged. -/
lemma score_to_note_events_sorted (score : Score)
    (h : (score.elements.flatMap elementEvents).Pairwise (fun a b => noteLe a b = true)) :
    score_to_note_events score = score.elements.flatMap elementEvents := by
  rw [score_to_note_events]
  exact List.mergeSort_of_sorted h

/-- Deconstruction of a successful conversion: the parsed score exists,
has at least 4 extracted notes, and the document's fields are the
pipeline's values. -/
lemma convert_file_some (parsed : Option Score) (stem : String) (song : Song)
    (h : convert_file parsed stem = some song) :
    ∃ score, parsed = some score ∧
      4 ≤ (score_to_note_events score).length ∧
      song.sections = split_into_sections (score_to_note_events score)
          (extract_time_signature score).1 16 ∧
      song.metadata.durationSeconds =
        estimate_duration (score_to_note_events score) (extract_tempo score) ∧
      song.metadata.difficulty =
        min 5 (max 1 (estimate_difficulty (score_to_note_events score) (extract_tempo score))) ∧
      song.settings.tempo = extract_tempo score := by
  cases parsed with
  | none => simp [convert_file] at h
  | some score =>
    refine ⟨score, rfl, ?_⟩
    simp only [convert_file] at h
    split at h
    · simp at h
    · split at h
      · simp at h
      · rename_i hlen hsec
        rw [Option.some.injEq] at h
        subst h
        exact ⟨Nat.not_lt.mp hlen, rfl, rfl, rfl, rfl⟩

/-- A parse success with at least 4 extracted notes always converts. -/
lemma convert_file_isSome (score : Score) (stem : String)
    (hlen : 4 ≤ (score_to_note_events score).length) :
    (convert_file (some score) stem).isSome := by
  have hne : score_to_note_events score ≠ [] := by
    intro hnil; rw [hnil] at hlen; simp at hlen
  simp only [convert_file]
  rw [if_neg (by omega), if_neg (fun hc => hne ((split_eq_nil_iff _ _ _).mp hc))]
  rfl

/-- C9: `split_into_sections` yields an empty section list if and only
if its input note list is empty, so every non-empty input produces at
least one section. -/
theorem c9_empty_iff (notes : List NoteEvent) (bpb bars : ℕ) :
    split_into_sections notes bpb bars = [] ↔ notes = [] :=
  split_eq_nil_iff notes bpb bars

/-- C10: every produced section has `layers.melody = layers.full`, both
non-empty, and concatenating the sections' `full` layers in order is
exactly the input note list: each note lands in exactly one section
with input order preserved. -/
theorem c10_layers_partition (notes : List NoteEvent) (bpb bars : ℕ) :
    ((split_into_sections notes bpb bars).flatMap (fun sec => sec.layers.full) = notes) ∧
    ∀ sec ∈ split_into_sections notes bpb bars,
      sec.layers.melody = sec.layers.full ∧ sec.layers.full ≠ [] := by
  constructor
  · by_cases h : notes = []
    · subst h; rfl
    · simp only [split_into_sections, if_neg h]
      rw [sectionLoop_flatMap]
      simp
  · intro sec hsec
    by_cases h : notes = []
    · subst h; simp [split_into_sections] at hsec
    · simp only [split_into_sections, if_neg h] at hsec
      exact sectionLoop_layers _ _ _ _ _ _ (by simp) sec hsec

lemma c10eval :
    split_into_sections [⟨60, 0, 1⟩] 4 16 =
      [mkFinalSection 0 0 ⟨60, 0, 1⟩ [⟨60, 0, 1⟩]] := by
  simp only [split_into_sections]
  rw [if_neg (by simp), sectionLoop_skip (by simp), List.nil_append,
    sectionLoop_nil_cons]
  rfl

/-- C10 witness: the concrete single-note split, its section's layer
equality and non-emptiness, and the concatenation identity. -/
theorem c10_witness :
    ((mkFinalSection 0 0 ⟨60, 0, 1⟩ [⟨60, 0, 1⟩]).layers.melody =
        (mkFinalSection 0 0 ⟨60, 0, 1⟩ [⟨60, 0, 1⟩]).layers.full ∧
      (mkFinalSection 0 0 ⟨60, 0, 1⟩ [⟨60, 0, 1⟩]).layers.full ≠ []) ∧
    (split_into_sections [⟨60, 0, 1⟩] 4 16).flatMap (fun sec => sec.layers.full) =
      [⟨60, 0, 1⟩] :=
  ⟨(c10_layers_partition [⟨60, 0, 1⟩] 4 16).2 _ (by rw [c10eval]; simp),
    (c10_layers_partition [⟨60, 0, 1⟩] 4 16).1⟩

/-- C1 (amended): the final section's `endBeat` equals
`startBeat + durationBeats` of the LAST note it contains (equally, the
input's last note), not the maximum of `startBeat + durationBeats` over
its notes — an earlier note sustaining past the last note's end makes
the two differ. -/
theorem c1_amended (notes : List NoteEvent) (bpb bars : ℕ) :
    ((split_into_sections notes bpb bars).getLast?.map Section.endBeat =
      notes.getLast?.map (fun n => n.startBeat + n.durationBeats)) ∧
    ((split_into_sections notes bpb bars).getLast?.bind
        (fun sec => sec.layers.full.getLast?) = notes.getLast?) := by
  by_cases h : notes = []
  · subst h; simp [split_into_sections]
  · simp only [split_into_sections, if_neg h]
    obtain ⟨sec, m, h1, h2, h3, h4⟩ :=
      sectionLoop_getLast _ notes [] [] 0 0 (by simpa using h)
    rw [List.nil_append] at h2
    constructor
    · rw [h1, h2]; simp [h4]
    · rw [h1, h2]; simp [h3]

/-- C2 (amended): `durationSeconds` is
`max(trunc(lastBeat / tempo × 60), 10)` where `trunc` is Python `int()`
(truncation toward zero), NOT rounding to the nearest integer; the
10-second floor is enforced, and `lastBeat` is the maximum of
`startBeat + durationBeats` over all notes. -/
theorem c2_amended (notes : List NoteEvent) (tempo : ℤ) (h : notes ≠ []) :
    estimate_duration notes tempo =
      max (pyInt (maxEndBeat notes / (tempo : ℚ) * 60)) 10 ∧
    10 ≤ estimate_duration notes tempo ∧
    (notes.map noteEnd).maximum = (maxEndBeat notes : WithBot ℚ) := by
  refine ⟨?_, ?_, maxEndBeat_eq_maximum h⟩
  · simp only [estimate_duration, if_neg h]
  · simp only [estimate_duration, if_neg h]
    exact le_max_right _ _

/-- C2 witness: the amended statement at one concrete note list. -/
theorem c2_witness :
    (estimate_duration [⟨60, 0, 2⟩] 120 =
      max (pyInt (maxEndBeat [⟨60, 0, 2⟩] / ((120 : ℤ) : ℚ) * 60)) 10) ∧
    10 ≤ estimate_duration [⟨60, 0, 2⟩] 120 ∧
    (([⟨60, 0, 2⟩] : List NoteEvent).map noteEnd).maximum =
      (maxEndBeat [⟨60, 0, 2⟩] : WithBot ℚ) :=
  c2_amended [⟨60, 0, 2⟩] 120 (by simp)

/-- C3 (amended): the extracted tempo is the first tempo mark's bpm
TRUNCATED toward zero (Python `int()`, i.e. the floor for the
non-negative bpm values that occur), not rounded to the nearest
integer; 120 when no tempo mark exists. -/
theorem c3_amended (score : Score) :
    (score.tempoMarks = [] → extract_tempo score = 120) ∧
    (∀ bpm rest, score.tempoMarks = bpm :: rest → extract_tempo score = pyInt bpm) ∧
    (∀ bpm rest, score.tempoMarks = bpm :: rest → 0 ≤ bpm →
      extract_tempo score = ⌊bpm⌋) := by
  refine ⟨?_, ?_, ?_⟩
  · intro h; simp only [extract_tempo, h]
  · intro bpm rest h; simp only [extract_tempo, h]
  · intro bpm rest h hpos
    simp only [extract_tempo, h, pyInt, if_pos hpos]

def c3wscore : Score :=
  { elements := [], keySignatures := [], timeSignatures := [],
    tempoMarks := [(100.5 : ℚ)], metadata := none }

/-- C3 witness: the amended statement at a concrete fractional bpm. -/
theorem c3_witness : extract_tempo c3wscore = ⌊(100.5 : ℚ)⌋ :=
  (c3_amended c3wscore).2.2 (100.5 : ℚ) [] rfl (by norm_num)

def c3score : Score :=
  { elements := [], keySignatures := [], timeSignatures := [],
    tempoMarks := [(120.7 : ℚ)], metadata := none }

/-- C3 counterexample: a score whose first tempo mark is 120.7 bpm.  The
code extracts 120 (truncation), while the claim's rounding to the
nearest integer gives 121. -/
theorem c3_counterexample :
    c3score.tempoMarks = [(120.7 : ℚ)] ∧
    extract_tempo c3score = 120 ∧
    round ((120.7 : ℚ)) = 121 ∧ (120 : ℤ) ≠ 121 := by
  refine ⟨rfl, ?_, ?_, by decide⟩
  · rw [show extract_tempo c3score = pyInt (120.7 : ℚ) from rfl, pyInt,
      if_pos (by norm_num)]
    norm_num [Int.floor_eq_iff]
  · rw [round_eq]
    norm_num [Int.floor_eq_iff]

/-- C4: for non-empty notes, the difficulty is the threshold mapping of
`score = (noteCount / max(lastBeat, 1)) × (tempo / 120)`, its value is
already within [1, 5] (so `convert_file`'s `min 5 (max 1 ·)` clamp is
the identity), and `lastBeat` is the maximum note end. -/
theorem c4_difficulty (notes : List NoteEvent) (tempo : ℤ) (h : notes ≠ []) :
    (estimate_difficulty notes tempo =
      (if ((notes.length : ℚ) / max (maxEndBeat notes) 1) * ((tempo : ℚ) / 120) < 1/2 then 1
       else if ((notes.length : ℚ) / max (maxEndBeat notes) 1) * ((tempo : ℚ) / 120) < 1 then 2
       else if ((notes.length : ℚ) / max (maxEndBeat notes) 1) * ((tempo : ℚ) / 120) < 2 then 3
       else if ((notes.length : ℚ) / max (maxEndBeat notes) 1) * ((tempo : ℚ) / 120) < 3 then 4
       else 5)) ∧
    (1 ≤ estimate_difficulty notes tempo ∧ estimate_difficulty notes tempo ≤ 5) ∧
    min 5 (max 1 (estimate_difficulty notes tempo)) = estimate_difficulty notes tempo ∧
    (notes.map noteEnd).maximum = (maxEndBeat notes : WithBot ℚ) := by
  have heq : estimate_difficulty notes tempo =
      (if ((notes.length : ℚ) / max (maxEndBeat notes) 1) * ((tempo : ℚ) / 120) < 1/2 then 1
       else if ((notes.length : ℚ) / max (maxEndBeat notes) 1) * ((tempo : ℚ) / 120) < 1 then 2
       else if ((notes.length : ℚ) / max (maxEndBeat notes) 1) * ((tempo : ℚ) / 120) < 2 then 3
       else if ((notes.length : ℚ) / max (maxEndBeat notes) 1) * ((tempo : ℚ) / 120) < 3 then 4
       else 5) := by
    simp only [estimate_difficulty, if_neg h]
  have hb : 1 ≤ estimate_difficulty notes tempo ∧ estimate_difficulty notes tempo ≤ 5 := by
    rw [heq]; split_ifs <;> norm_num
  refine ⟨heq, hb, ?_, maxEndBeat_eq_maximum h⟩
  rw [max_eq_right hb.1, min_eq_right hb.2]

def c4wnotes : List NoteEvent := [⟨60, 0, 1⟩]

/-- C4 witness: the statement at a concrete note list and tempo. -/
theorem c4_witness :
    (estimate_difficulty c4wnotes 120 =
      (if ((c4wnotes.length : ℚ) / max (maxEndBeat c4wnotes) 1) * (((120 : ℤ) : ℚ) / 120) < 1/2 then 1
       else if ((c4wnotes.length : ℚ) / max (maxEndBeat c4wnotes) 1) * (((120 : ℤ) : ℚ) / 120) < 1 then 2
       else if ((c4wnotes.length : ℚ) / max (maxEndBeat c4wnotes) 1) * (((120 : ℤ) : ℚ) / 120) < 2 then 3
       else if ((c4wnotes.length : ℚ) / max (maxEndBeat c4wnotes) 1) * (((120 : ℤ) : ℚ) / 120) < 3 then 4
       else 5)) ∧
    (1 ≤ estimate_difficulty c4wnotes 120 ∧ estimate_difficulty c4wnotes 120 ≤ 5) ∧
    min 5 (max 1 (estimate_difficulty c4wnotes 120)) = estimate_difficulty c4wnotes 120 ∧
    (c4wnotes.map noteEnd).maximum = (maxEndBeat c4wnotes : WithBot ℚ) :=
  c4_difficulty c4wnotes 120 (by simp [c4wnotes])

/-- C5: every accepted file's document has a non-empty section list,
whose first section starts at beat 0 and whose startBeats are
non-decreasing in output order. -/
theorem c5_sections_invariants (parsed : Option Score) (stem : String) (song : Song)
    (h : convert_file parsed stem = some song) :
    song.sections ≠ [] ∧
    song.sections.head?.map Section.startBeat = some 0 ∧
    List.Sorted (· ≤ ·) (song.sections.map Section.startBeat) := by
  obtain ⟨score, -, hlen, hsec, -, -, -⟩ := convert_file_some parsed stem song h
  have hne : score_to_note_events score ≠ [] := by
    intro hnil; rw [hnil] at hlen; simp at hlen
  rw [hsec]
  refine ⟨?_, ?_, ?_⟩
  · rw [Ne, split_eq_nil_iff]; exact hne
  · simp only [split_into_sections, if_neg hne]
    exact sectionLoop_head _ _ _ _ _ (Or.inr hne)
  · simp only [split_into_sections, if_neg hne]
    exact sectionLoop_sorted _ (by positivity) _ [] [] 0 0 (by simp) (by simp)

/-- C6: a window closes exactly when the current note starts at or past
the window end AND the buffer is non-empty; the closed section's
`endBeat` is the nominal window end `s + beatsPerBar × 16`; the boundary
advances by exactly one window width per closure — so a note more than
one window past the boundary still advances it only once and is
buffered into the immediately-following window, which it starts at or
beyond. -/
theorem c6_window_step (beats_per_bar : ℕ) (n : NoteEvent) (rest : List NoteEvent)
    (sections : List Section) (buf : List NoteEvent) (s : ℚ) (i : ℕ) :
    (∀ notes : List NoteEvent, split_into_sections notes beats_per_bar 16 =
      if notes = [] then [] else
        sectionLoop ((beats_per_bar : ℚ) * 16) notes [] [] 0 0) ∧
    (s + (beats_per_bar : ℚ) * 16 ≤ n.startBeat ∧ buf ≠ [] →
      sectionLoop ((beats_per_bar : ℚ) * 16) (n :: rest) sections buf s i =
        sectionLoop ((beats_per_bar : ℚ) * 16) rest
          (sections ++ [mkClosedSection i s ((beats_per_bar : ℚ) * 16) buf])
          [n] (s + (beats_per_bar : ℚ) * 16) (i + 1)) ∧
    (¬(s + (beats_per_bar : ℚ) * 16 ≤ n.startBeat ∧ buf ≠ []) →
      sectionLoop ((beats_per_bar : ℚ) * 16) (n :: rest) sections buf s i =
        sectionLoop ((beats_per_bar : ℚ) * 16) rest sections (buf ++ [n]) s i) ∧
    (mkClosedSection i s ((beats_per_bar : ℚ) * 16) buf).endBeat =
      s + (beats_per_bar : ℚ) * 16 ∧
    (s + 2 * ((beats_per_bar : ℚ) * 16) ≤ n.startBeat ∧ buf ≠ [] →
      sectionLoop ((beats_per_bar : ℚ) * 16) (n :: rest) sections buf s i =
        sectionLoop ((beats_per_bar : ℚ) * 16) rest
          (sections ++ [mkClosedSection i s ((beats_per_bar : ℚ) * 16) buf])
          [n] (s + (beats_per_bar : ℚ) * 16) (i + 1) ∧
      s + (beats_per_bar : ℚ) * 16 + (beats_per_bar : ℚ) * 16 ≤ n.startBeat) := by
  have hcast : ((16 : ℕ) : ℚ) = 16 := by norm_num
  refine ⟨?_, ?_, ?_, rfl, ?_⟩
  · intro notes; simp only [split_into_sections, hcast]
  · intro hc; exact sectionLoop_close hc
  · intro hc; exact sectionLoop_skip hc
  · intro hc
    have hw : (0 : ℚ) ≤ (beats_per_bar : ℚ) * 16 := by positivity
    have h1 : s + (beats_per_bar : ℚ) * 16 ≤ n.startBeat := by linarith [hc.1]
    exact ⟨sectionLoop_close ⟨h1, hc.2⟩, by linarith [hc.1]⟩

/-- C6 witness: a note two windows past the boundary (startBeat 40,
window width 16) closes the window once: the boundary advances a single
width and the note is buffered into the next window. -/
theorem c6_witness :
    sectionLoop (((1 : ℕ) : ℚ) * 16) [⟨60, 40, 1⟩] [] [⟨50, 0, 1⟩] 0 0 =
      sectionLoop (((1 : ℕ) : ℚ) * 16) []
        ([] ++ [mkClosedSection 0 0 (((1 : ℕ) : ℚ) * 16) [⟨50, 0, 1⟩]])
        [⟨60, 40, 1⟩] (0 + ((1 : ℕ) : ℚ) * 16) (0 + 1) :=
  ((c6_window_step 1 ⟨60, 40, 1⟩ [] [] [⟨50, 0, 1⟩] 0 0).2.2.2.2
    (by refine ⟨?_, by simp⟩; norm_num)).1

/-- C7: the note extractor emits one NoteEvent per pitch of each note or
chord element (a chord's events share the element's offset and
duration), nothing for rests, and the output is sorted ascending by
(startBeat, pitch) for every input element stream, being a permutation
of the extracted events. -/
theorem c7_note_extraction (score : Score) :
    (∀ pitch offset duration,
      elementEvents (ScoreElement.note pitch offset duration) =
        [⟨pitch, offset, duration⟩]) ∧
    (∀ pitches offset duration,
      elementEvents (ScoreElement.chord pitches offset duration) =
        pitches.map fun pitch => ⟨pitch, offset, duration⟩) ∧
    (∀ offset duration, elementEvents (ScoreElement.rest offset duration) = []) ∧
    (score_to_note_events score).Perm (score.elements.flatMap elementEvents) ∧
    List.Pairwise
      (fun a b => a.startBeat < b.startBeat ∨
        (a.startBeat = b.startBeat ∧ a.note ≤ b.note))
      (score_to_note_events score) := by
  refine ⟨fun _ _ _ => rfl, fun _ _ _ => rfl, fun _ _ => rfl,
    List.mergeSort_perm _ noteLe, ?_⟩
  have hp := @List.sorted_mergeSort NoteEvent noteLe noteLe_trans noteLe_total
    (score.elements.flatMap elementEvents)
  exact hp.imp fun hab => by
    simp only [noteLe, decide_eq_true_eq] at hab
    exact hab

/-- C8: conversion yields a (complete) Song document exactly when
parsing succeeded and at least 4 notes were extracted; with fewer than
4 notes (or a parse failure) nothing is returned. -/
theorem c8_convert_file_total (parsed : Option Score) (stem : String) :
    (convert_file parsed stem).isSome ↔
      ∃ score, parsed = some score ∧ 4 ≤ (score_to_note_events score).length := by
  constructor
  · intro h
    obtain ⟨song, hsong⟩ := Option.isSome_iff_exists.mp h
    obtain ⟨score, hp, hlen, -, -, -, -⟩ := convert_file_some parsed stem song hsong
    exact ⟨score, hp, hlen⟩
  · rintro ⟨score, rfl, hlen⟩
    exact convert_file_isSome score stem hlen

/-! Concrete inputs for the refuted claims and the pipeline witnesses. -/

def c1score : Score :=
  { elements := [ScoreElement.note 60 0 10, ScoreElement.note 62 1 1,
                 ScoreElement.note 64 2 1, ScoreElement.note 65 3 1]
    keySignatures := [], timeSignatures := [], tempoMarks := [], metadata := none }

def c1notesList : List NoteEvent := [⟨60, 0, 10⟩, ⟨62, 1, 1⟩, ⟨64, 2, 1⟩, ⟨65, 3, 1⟩]

lemma c1notes : score_to_note_events c1score = c1notesList := by
  rw [score_to_note_events_sorted]
  · rfl
  · rw [show c1score.elements.flatMap elementEvents = c1notesList from rfl]
    simp only [c1notesList, List.pairwise_cons, List.mem_cons, List.not_mem_nil,
      noteLe, decide_eq_true_eq]
    norm_num

lemma c1sections :
    split_into_sections c1notesList 4 16 =
      [mkFinalSection 0 0 ⟨65, 3, 1⟩ c1notesList] := by
  simp only [c1notesList, split_into_sections]
  rw [if_neg (by simp)]
  rw [sectionLoop_skip (by simp), List.nil_append]
  rw [sectionLoop_skip (by rintro ⟨h1, -⟩; norm_num at h1)]
  rw [sectionLoop_skip (by rintro ⟨h1, -⟩; norm_num at h1)]
  rw [sectionLoop_skip (by rintro ⟨h1, -⟩; norm_num at h1)]
  simp only [List.singleton_append, List.cons_append, List.nil_append]
  rw [sectionLoop_nil_cons]
  rfl

/-- C1 counterexample: an accepted 4-note file whose first note sustains
10 beats.  The single (final) section's `endBeat` is 4 — the end of the
LAST note it contains — while the maximum of `startBeat + durationBeats`
over its notes is 10, refuting the claimed equality. -/
theorem c1_counterexample :
    ((convert_file (some c1score) "piece").map
        (fun song => song.sections.getLast?.map
          (fun sec => (sec.endBeat, maxEndBeat sec.layers.full))) =
      some (some ((4 : ℚ), (10 : ℚ)))) ∧ (4 : ℚ) ≠ (10 : ℚ) := by
  constructor
  · have hs : (convert_file (some c1score) "piece").isSome :=
      convert_file_isSome c1score "piece" (by rw [c1notes]; simp [c1notesList])
    obtain ⟨song, hsong⟩ := Option.isSome_iff_exists.mp hs
    obtain ⟨score, hp, -, hsec, -, -, -⟩ := convert_file_some _ _ _ hsong
    injection hp with hp
    subst hp
    rw [c1notes, show (extract_time_signature c1score).1 = 4 from rfl,
      c1sections] at hsec
    rw [hsong, Option.map_some', hsec, List.getLast?_singleton, Option.map_some']
    norm_num [mkFinalSection, maxEndBeat, noteEnd, c1notesList]
  · norm_num

def c2score : Score :=
  { elements := [ScoreElement.note 60 0 1, ScoreElement.note 62 1 1,
                 ScoreElement.note 64 2 1, ScoreElement.note 65 3 (7.9 : ℚ)]
    keySignatures := [], timeSignatures := [], tempoMarks := [(60 : ℚ)],
    metadata := none }

def c2notesList : List NoteEvent :=
  [⟨60, 0, 1⟩, ⟨62, 1, 1⟩, ⟨64, 2, 1⟩, ⟨65, 3, (7.9 : ℚ)⟩]

lemma c2notes : score_to_note_events c2score = c2notesList := by
  rw [score_to_note_events_sorted]
  · rfl
  · rw [show c2score.elements.flatMap elementEvents = c2notesList from rfl]
    simp only [c2notesList, List.pairwise_cons, List.mem_cons, List.not_mem_nil,
      noteLe, decide_eq_true_eq]
    norm_num

lemma c2maxEnd : maxEndBeat c2notesList = (10.9 : ℚ) := by
  simp only [c2notesList, maxEndBeat, List.foldl, noteEnd]
  norm_num

lemma c2tempo : extract_tempo c2score = 60 := by
  rw [show extract_tempo c2score = pyInt (60 : ℚ) from rfl, pyInt,
    if_pos (by norm_num)]
  norm_num [Int.floor_eq_iff]

lemma c2dur : estimate_duration c2notesList 60 = 10 := by
  simp only [estimate_duration]
  rw [if_neg (by simp [c2notesList])]
  rw [c2maxEnd]
  rw [show ((10.9 : ℚ) / ((60 : ℤ) : ℚ) * 60) = (10.9 : ℚ) by push_cast; norm_num]
  rw [pyInt, if_pos (by norm_num)]
  rw [show ⌊(10.9 : ℚ)⌋ = 10 by norm_num [Int.floor_eq_iff]]
  decide

/-- C2 counterexample: an accepted file with `lastBeat = 10.9` and tempo
60.  The code truncates: `durationSeconds = max(int(10.9), 10) = 10`,
while the claimed rounding gives `max(round(10.9), 10) = 11`. -/
theorem c2_counterexample :
    ((convert_file (some c2score) "piece").map
        (fun song => song.metadata.durationSeconds) = some 10) ∧
    ((convert_file (some c2score) "piece").map
        (fun song => song.settings.tempo) = some 60) ∧
    maxEndBeat (score_to_note_events c2score) = (10.9 : ℚ) ∧
    max (round ((10.9 : ℚ) / ((60 : ℤ) : ℚ) * 60)) 10 = (11 : ℤ) ∧
    (10 : ℤ) ≠ 11 := by
  have hs : (convert_file (some c2score) "piece").isSome :=
    convert_file_isSome c2score "piece" (by rw [c2notes]; simp [c2notesList])
  obtain ⟨song, hsong⟩ := Option.isSome_iff_exists.mp hs
  obtain ⟨score, hp, -, -, hdur, -, htempo⟩ := convert_file_some _ _ _ hsong
  injection hp with hp
  subst hp
  refine ⟨?_, ?_, ?_, ?_, by decide⟩
  · rw [hsong, Option.map_some', hdur, c2notes, c2tempo, c2dur]
  · rw [hsong, Option.map_some', htempo, c2tempo]
  · rw [c2notes, c2maxEnd]
  · rw [show ((10.9 : ℚ) / ((60 : ℤ) : ℚ) * 60) = (10.9 : ℚ) by push_cast; norm_num,
      round_eq,
      show ((10.9 : ℚ) + 1/2) = (11.4 : ℚ) by norm_num,
      show ⌊(11.4 : ℚ)⌋ = 11 by norm_num [Int.floor_eq_iff]]
    decide

def c5score : Score :=
  { elements := [ScoreElement.note 60 0 1, ScoreElement.note 62 1 1,
                 ScoreElement.note 64 2 1, ScoreElement.note 65 3 1]
    keySignatures := [], timeSignatures := [], tempoMarks := [], metadata := none }

def c5notesList : List NoteEvent := [⟨60, 0, 1⟩, ⟨62, 1, 1⟩, ⟨64, 2, 1⟩, ⟨65, 3, 1⟩]

/-- The document `convert_file` produces for `c5score`. -/
def c5song : Song :=
  { id := "pdmx-" ++ slugify "fur elise"
    version := 1
    type := "song"
    source := "pdmx"
    metadata :=
      { title := pyTitle ((slugify "fur elise").replace "-" " ")
        artist := "Classical"
        genre := "classical"
        difficulty := 3
        durationSeconds := 10
        attribution := "Piano-MIDI.de corpus" }
    sections := [mkFinalSection 0 0 ⟨65, 3, 1⟩ c5notesList]
    settings :=
      { tempo := 120, timeSignature := [4, 4], keySignature := "C",
        countIn := 4, metronomeEnabled := true, loopEnabled := true }
    scoring :=
      { timingToleranceMs := 50, timingGracePeriodMs := 150,
        passingScore := 70, starThresholds := [70, 85, 95] } }

lemma c5notes : score_to_note_events c5score = c5notesList := by
  rw [score_to_note_events_sorted]
  · rfl
  · rw [show c5score.elements.flatMap elementEvents = c5notesList from rfl]
    simp only [c5notesList, List.pairwise_cons, List.mem_cons, List.not_mem_nil,
      noteLe, decide_eq_true_eq]
    norm_num

lemma c5sections :
    split_into_sections c5notesList 4 16 =
      [mkFinalSection 0 0 ⟨65, 3, 1⟩ c5notesList] := by
  simp only [c5notesList, split_into_sections]
  rw [if_neg (by simp)]
  rw [sectionLoop_skip (by simp), List.nil_append]
  rw [sectionLoop_skip (by rintro ⟨h1, -⟩; norm_num at h1)]
  rw [sectionLoop_skip (by rintro ⟨h1, -⟩; norm_num at h1)]
  rw [sectionLoop_skip (by rintro ⟨h1, -⟩; norm_num at h1)]
  simp only [List.singleton_append, List.cons_append, List.nil_append]
  rw [sectionLoop_nil_cons]
  rfl

lemma c5maxEnd : maxEndBeat c5notesList = 4 := by
  simp only [c5notesList, maxEndBeat, List.foldl, noteEnd]
  norm_num

lemma c5diff : estimate_difficulty c5notesList 120 = 3 := by
  simp only [estimate_difficulty]
  rw [if_neg (by simp [c5notesList])]
  rw [c5maxEnd, show (List.length c5notesList : ℚ) = 4 by simp [c5notesList]]
  norm_num

lemma c5dur : estimate_duration c5notesList 120 = 10 := by
  simp only [estimate_duration]
  rw [if_neg (by simp [c5notesList])]
  rw [c5maxEnd]
  rw [show ((4 : ℚ) / ((120 : ℤ) : ℚ) * 60) = (2 : ℚ) by push_cast; norm_num]
  rw [pyInt, if_pos (by norm_num)]
  rw [show ⌊(2 : ℚ)⌋ = 2 by norm_num [Int.floor_eq_iff]]
  decide

lemma c5eval : convert_file (some c5score) "fur elise" = some c5song := by
  simp only [convert_file]
  rw [c5notes]
  rw [if_neg (by norm_num [c5notesList])]
  rw [show extract_tempo c5score = (120 : ℤ) from rfl]
  rw [show (extract_time_signature c5score).1 = 4 from rfl]
  rw [show (extract_time_signature c5score).2 = 4 from rfl]
  rw [show extract_key_signature c5score = "C" from rfl]
  rw [c5sections]
  rw [if_neg (by simp)]
  rw [c5diff, c5dur]
  rw [show min 5 (max 1 (3 : ℤ)) = 3 by decide]
  rfl

/-- C5 witness: the statement at a concrete accepted file, with the
conversion hypothesis discharged by the concrete document. -/
theorem c5_witness :
    c5song.sections ≠ [] ∧
    c5song.sections.head?.map Section.startBeat = some 0 ∧
    List.Sorted (· ≤ ·) (c5song.sections.map Section.startBeat) :=
  c5_sections_invariants (some c5score) "fur elise" c5song c5eval

end PDMX
